import Mathlib

/-!
Verification of the binary-layout field-access engine.

The development embeds the layout-resolution fold generated by the
layout-definition macro (its offset accumulator, the constants
`unwrap_field_size` and `option_usize_add`, and the generated `View`
struct with its accessors), together with the primitive-field codec and
storage-handle components the macro delegates to, and proves the spec
claims about them.
-/

/-- A field descriptor as consumed by the layout resolver: a name and
either a fixed byte size, or `none` for an open-ended field. -/
structure FieldSpec where
  name : String
  size : Option Nat
  deriving DecidableEq, Repr

/-- A field after resolution: name, resolved byte offset, size. -/
structure ResolvedField where
  name : String
  offset : Nat
  size : Option Nat
  deriving DecidableEq, Repr

/-- The definition-time failure of the layout resolver: an open-ended
field appears in a non-terminal position. The source signals this via a
const-evaluation panic inside `unwrap_field_size`. -/
inductive DefError
  | openEndedFieldNotLast
  deriving DecidableEq, Repr

/-- Embeds `unwrap_field_size` from the source: unwraps the offset
accumulator; the unconditional const panic on `None` is modelled as the
`openEndedFieldNotLast` error. -/
def unwrap_field_size : Option Nat → Except DefError Nat
  | some x => Except.ok x
  | none => Except.error DefError.openEndedFieldNotLast

/-- Embeds `option_usize_add` from the source: adds a defined offset to
an optional size, `None`-propagating. -/
def option_usize_add (lhs : Nat) (rhs : Option Nat) : Option Nat :=
  match rhs with
  | some r => some (lhs + r)
  | none => none

/-- Embeds the recursive `@impl_fields` arm of the layout macro: a
left-to-right fold over the field list. For each field the resolved
offset is `unwrap_field_size` of the accumulator and the new accumulator
is `option_usize_add offset size`; the empty arm emits the layout `SIZE`
constant, which is the final accumulator. -/
def resolveFields (acc : Option Nat) : List FieldSpec → Except DefError (List ResolvedField × Option Nat)
  | [] => Except.ok ([], acc)
  | f :: rest =>
    match unwrap_field_size acc with
    | Except.error e => Except.error e
    | Except.ok offset =>
      match resolveFields (option_usize_add offset f.size) rest with
      | Except.error e => Except.error e
      | Except.ok (rs, total) => Except.ok (ResolvedField.mk f.name offset f.size :: rs, total)

/-- Sum of the defined sizes of a field list (each open-ended field
contributes 0; it is only applied where all sizes are defined). -/
def sumSizes (fs : List FieldSpec) : Nat :=
  (fs.map (fun f => f.size.getD 0)).sum

lemma sumSizes_nil : sumSizes [] = 0 := rfl

lemma sumSizes_cons (f : FieldSpec) (l : List FieldSpec) :
    sumSizes (f :: l) = f.size.getD 0 + sumSizes l := by
  simp [sumSizes]

lemma resolveFields_none_cons (f : FieldSpec) (rest : List FieldSpec) :
    resolveFields none (f :: rest) = Except.error DefError.openEndedFieldNotLast := by
  simp [resolveFields, unwrap_field_size]

lemma resolveFields_none_ok {l : List FieldSpec} {p : List ResolvedField × Option Nat}
    (h : resolveFields none l = Except.ok p) : l = [] ∧ p = ([], none) := by
  cases l with
  | nil =>
    refine ⟨rfl, ?_⟩
    simp [resolveFields] at h
    exact h.symm
  | cons f rest =>
    rw [resolveFields_none_cons] at h
    exact absurd h (by simp)

lemma resolveFields_some_nil_ok {k : Nat} {rs : List ResolvedField} {total : Option Nat}
    (h : resolveFields (some k) [] = Except.ok (rs, total)) : rs = [] ∧ total = some k := by
  simp [resolveFields] at h
  exact ⟨h.1, h.2.symm⟩

lemma resolveFields_ok_spec :
    ∀ (fields : List FieldSpec) (k : Nat) (rs : List ResolvedField) (total : Option Nat),
    resolveFields (some k) fields = Except.ok (rs, total) →
    rs.map ResolvedField.name = fields.map FieldSpec.name ∧
    rs.map ResolvedField.size = fields.map FieldSpec.size ∧
    (∀ i (hi : i < rs.length), (rs.get ⟨i, hi⟩).offset = k + sumSizes (fields.take i)) ∧
    (total = none ↔ ∃ f, fields.getLast? = some f ∧ f.size = none) ∧
    (total ≠ none → total = some (k + sumSizes fields)) := by
  intro fields
  induction fields with
  | nil =>
    intro k rs total h
    simp [resolveFields] at h
    obtain ⟨h1, h2⟩ := h
    subst h1
    subst h2
    refine ⟨rfl, rfl, ?_, by simp, by simp [sumSizes]⟩
    intro i hi
    simp at hi
  | cons f rest ih =>
    intro k rs total h
    rw [resolveFields] at h
    simp only [unwrap_field_size] at h
    cases hr : resolveFields (option_usize_add k f.size) rest with
    | error e =>
      rw [hr] at h
      exact absurd h (by simp)
    | ok p =>
      obtain ⟨rs2, total2⟩ := p
      rw [hr] at h
      simp only [Except.ok.injEq, Prod.mk.injEq] at h
      obtain ⟨hrs, htot⟩ := h
      subst hrs
      subst htot
      cases hfs : f.size with
      | some s =>
        rw [hfs] at hr
        simp only [option_usize_add] at hr
        obtain ⟨hn, hs, hoff, hiff, hsum⟩ := ih (k + s) rs2 total2 hr
        refine ⟨by simp [hn], by simp [hs, hfs], ?_, ?_, ?_⟩
        · intro i hi
          cases i with
          | zero => simp [sumSizes]
          | succ j =>
            have hj : j < rs2.length := by simpa using hi
            have := hoff j hj
            simp only [List.get] at this ⊢
            rw [this, List.take_succ_cons, sumSizes_cons, hfs]
            simp [Nat.add_assoc]
        · cases rest with
          | nil =>
            obtain ⟨h1, h2⟩ := resolveFields_some_nil_ok hr
            subst h2
            simp [hfs]
          | cons g t =>
            rw [List.getLast?_cons_cons]
            exact hiff
        · intro hne
          rw [hsum hne, sumSizes_cons, hfs]
          simp [Nat.add_assoc]
      | none =>
        rw [hfs] at hr
        simp only [option_usize_add] at hr
        obtain ⟨h1, h2⟩ := resolveFields_none_ok hr
        subst h1
        simp only [Prod.mk.injEq] at h2
        obtain ⟨h2a, h2b⟩ := h2
        subst h2a
        subst h2b
        refine ⟨rfl, by simp [hfs], ?_, ?_, ?_⟩
        · intro i hi
          simp only [List.length_cons, List.length_nil] at hi
          interval_cases i
          · simp [sumSizes]
        · simp [hfs]
        · intro hne
          exact absurd rfl hne

/-- Claim C1: the layout resolver is a left-to-right fold whose
accumulator starts at `some 0`; each field's resolved offset is the
accumulator before it (the prefix sum of the preceding sizes), the new
accumulator adds the field size when defined and is `none` otherwise,
and the layout `SIZE` constant is the final accumulator: `none` exactly
when the last field is open-ended, and `some` of the sum of all field
sizes otherwise. -/
theorem layout_resolver_fold_correct (fields : List FieldSpec) (rs : List ResolvedField)
    (total : Option Nat) (h : resolveFields (some 0) fields = Except.ok (rs, total)) :
    rs.map ResolvedField.name = fields.map FieldSpec.name ∧
    rs.map ResolvedField.size = fields.map FieldSpec.size ∧
    (∀ i (hi : i < rs.length), (rs.get ⟨i, hi⟩).offset = sumSizes (fields.take i)) ∧
    (total = none ↔ ∃ f, fields.getLast? = some f ∧ f.size = none) ∧
    (total ≠ none → total = some (sumSizes fields)) := by
  have h2 := resolveFields_ok_spec fields 0 rs total h
  simpa using h2

/-- Witness for claim C1 at the two-field layout a:1, b:2. -/
theorem layout_resolver_fold_correct_witness :
    (ResolvedField.mk "a" 0 (some 1) :: ResolvedField.mk "b" 1 (some 2) :: []).map ResolvedField.name =
      (FieldSpec.mk "a" (some 1) :: FieldSpec.mk "b" (some 2) :: []).map FieldSpec.name :=
  (layout_resolver_fold_correct (FieldSpec.mk "a" (some 1) :: FieldSpec.mk "b" (some 2) :: [])
    (ResolvedField.mk "a" 0 (some 1) :: ResolvedField.mk "b" 1 (some 2) :: []) (some 3) rfl).1

lemma resolveFields_error_of_open_ended :
    ∀ (fields : List FieldSpec) (k i : Nat) (hi : i + 1 < fields.length),
    (fields.get ⟨i, Nat.lt_of_succ_lt hi⟩).size = none →
    resolveFields (some k) fields = Except.error DefError.openEndedFieldNotLast := by
  intro fields
  induction fields with
  | nil =>
    intro k i hi hopen
    simp at hi
  | cons f rest ih =>
    intro k i hi hopen
    cases i with
    | zero =>
      have hf : f.size = none := hopen
      cases rest with
      | nil => simp at hi
      | cons g t =>
        rw [resolveFields]
        simp [unwrap_field_size, hf, option_usize_add, resolveFields_none_cons]
    | succ j =>
      have hj : j + 1 < rest.length := by simpa using hi
      have hopen2 : (rest.get ⟨j, Nat.lt_of_succ_lt hj⟩).size = none := hopen
      cases hfs : f.size with
      | some s =>
        rw [resolveFields]
        simp only [unwrap_field_size, hfs, option_usize_add]
        rw [ih (k + s) j hj hopen2]
      | none =>
        cases rest with
        | nil => simp at hj
        | cons g t =>
          rw [resolveFields]
          simp [unwrap_field_size, hfs, option_usize_add, resolveFields_none_cons]

/-- Claim C3: a layout with an open-ended field in any non-terminal
position is rejected at layout-definition time with the
open-ended-field-not-last error; equivalently, resolving a field offset
from an accumulator that is already `none` fails rather than producing
an offset. -/
theorem open_ended_not_last_rejected (fields : List FieldSpec) (i : Nat)
    (hi : i + 1 < fields.length)
    (hopen : (fields.get ⟨i, Nat.lt_of_succ_lt hi⟩).size = none) :
    resolveFields (some 0) fields = Except.error DefError.openEndedFieldNotLast ∧
    unwrap_field_size none = Except.error DefError.openEndedFieldNotLast :=
  ⟨resolveFields_error_of_open_ended fields 0 i hi hopen, rfl⟩

/-- Witness for claim C3 at the layout tail:open-ended, x:1. -/
theorem open_ended_not_last_rejected_witness :
    resolveFields (some 0) (FieldSpec.mk "tail" none :: FieldSpec.mk "x" (some 1) :: []) =
        Except.error DefError.openEndedFieldNotLast ∧
    unwrap_field_size none = Except.error DefError.openEndedFieldNotLast :=
  open_ended_not_last_rejected (FieldSpec.mk "tail" none :: FieldSpec.mk "x" (some 1) :: []) 0
    (by decide) rfl

/-- Endianness applied to multi-byte primitive fields. -/
inductive Endianness
  | big
  | little
  deriving DecidableEq, Repr

/-- Modelled from the spec: the endianness codec is a component the
macro delegates to and is not under src/. Little-endian encoding of a
value into a given number of bytes, least significant byte first. -/
def encodeLE : Nat → Nat → List Nat
  | 0, _ => []
  | n + 1, v => v % 256 :: encodeLE n (v / 256)

/-- Modelled from the spec: little-endian decoding of a byte list. -/
def decodeLE : List Nat → Nat
  | [] => 0
  | b :: bs => b + 256 * decodeLE bs

/-- Modelled from the spec: endianness-dispatching encoder; big endian
is the byte-reversed little-endian representation. -/
def encodeBytes (e : Endianness) (size v : Nat) : List Nat :=
  match e with
  | Endianness.little => encodeLE size v
  | Endianness.big => (encodeLE size v).reverse

/-- Modelled from the spec: endianness-dispatching decoder. -/
def decodeBytes (e : Endianness) (bs : List Nat) : Nat :=
  match e with
  | Endianness.little => decodeLE bs
  | Endianness.big => decodeLE bs.reverse

/-- The recoverable access-time failure: a read or write range exceeds
the buffer's actual length. -/
inductive AccessError
  | bufferTooShort (required actual : Nat)
  deriving DecidableEq, Repr

/-- Modelled from the spec: Primitive Field `read`; the PrimitiveField
implementation is not under src/. Requires `buffer.len >= offset+size`
and decodes the `size` bytes at `offset` per endianness. -/
def primRead (e : Endianness) (offset size : Nat) (buf : List Nat) : Except AccessError Nat :=
  if offset + size ≤ buf.length then
    Except.ok (decodeBytes e ((buf.drop offset).take size))
  else
    Except.error (AccessError.bufferTooShort (offset + size) buf.length)

/-- Modelled from the spec: Primitive Field `write`; encodes the value
into the `size` bytes at `offset`, failing with `bufferTooShort` when
the buffer is too short. -/
def primWrite (e : Endianness) (offset size : Nat) (buf : List Nat) (v : Nat) : Except AccessError (List Nat) :=
  if offset + size ≤ buf.length then
    Except.ok (buf.take offset ++ encodeBytes e size v ++ buf.drop (offset + size))
  else
    Except.error (AccessError.bufferTooShort (offset + size) buf.length)

/-- Modelled from the spec: two's-complement wire pattern of a signed
value for a field of `size` bytes. -/
def toWire (size : Nat) (v : Int) : Nat :=
  (v % (2 : Int) ^ (8 * size)).toNat

/-- Modelled from the spec: signed interpretation of an unsigned wire
pattern for a field of `size` bytes. -/
def fromWire (size : Nat) (u : Nat) : Int :=
  if (u : Int) < 2 ^ (8 * size - 1) then (u : Int) else (u : Int) - 2 ^ (8 * size)

/-- Modelled from the spec: Primitive Field `write` for signed integer
wire types, via the two's-complement pattern. -/
def primWriteSigned (e : Endianness) (offset size : Nat) (buf : List Nat) (v : Int) : Except AccessError (List Nat) :=
  primWrite e offset size buf (toWire size v)

/-- Modelled from the spec: Primitive Field `read` for signed integer
wire types. -/
def primReadSigned (e : Endianness) (offset size : Nat) (buf : List Nat) : Except AccessError Int :=
  Except.map (fromWire size) (primRead e offset size buf)

/-- Modelled from the spec: Primitive Field `read` for fixed-size byte
arrays, which copies the bytes verbatim. -/
def primReadBytes (offset size : Nat) (buf : List Nat) : Except AccessError (List Nat) :=
  if offset + size ≤ buf.length then
    Except.ok ((buf.drop offset).take size)
  else
    Except.error (AccessError.bufferTooShort (offset + size) buf.length)

/-- Modelled from the spec: Primitive Field `write` for fixed-size byte
arrays. -/
def primWriteBytes (offset : Nat) (buf : List Nat) (data : List Nat) : Except AccessError (List Nat) :=
  if offset + data.length ≤ buf.length then
    Except.ok (buf.take offset ++ data ++ buf.drop (offset + data.length))
  else
    Except.error (AccessError.bufferTooShort (offset + data.length) buf.length)

lemma encodeLE_length (n : Nat) : ∀ v, (encodeLE n v).length = n := by
  induction n with
  | zero => intro v; rfl
  | succ m ih => intro v; simp [encodeLE, ih]

lemma encodeBytes_length (e : Endianness) (n v : Nat) : (encodeBytes e n v).length = n := by
  cases e <;> simp [encodeBytes, encodeLE_length]

lemma decodeLE_encodeLE (n : Nat) : ∀ v, v < 256 ^ n → decodeLE (encodeLE n v) = v := by
  induction n with
  | zero =>
    intro v hv
    have hz : v = 0 := by simpa using hv
    subst hz
    rfl
  | succ m ih =>
    intro v hv
    have hdiv : v / 256 < 256 ^ m := by
      apply Nat.div_lt_of_lt_mul
      rw [pow_succ] at hv
      omega
    rw [encodeLE, decodeLE, ih (v / 256) hdiv]
    exact Nat.mod_add_div v 256

lemma decodeBytes_encodeBytes (e : Endianness) (n v : Nat) (hv : v < 256 ^ n) :
    decodeBytes e (encodeBytes e n v) = v := by
  cases e <;> simp [decodeBytes, encodeBytes, List.reverse_reverse, decodeLE_encodeLE n v hv]

lemma splice_slice (off sz : Nat) (buf mid : List Nat) (hle : off + sz ≤ buf.length)
    (hm : mid.length = sz) :
    ((buf.take off ++ mid ++ buf.drop (off + sz)).drop off).take sz = mid := by
  have hoff : (buf.take off).length = off := by
    rw [List.length_take]
    omega
  rw [List.append_assoc, List.drop_left' hoff, List.take_left' hm]

lemma splice_length (off sz : Nat) (buf mid : List Nat) (hle : off + sz ≤ buf.length)
    (hm : mid.length = sz) :
    (buf.take off ++ mid ++ buf.drop (off + sz)).length = buf.length := by
  simp only [List.length_append, List.length_take, List.length_drop, hm]
  omega

lemma primWrite_ok (e : Endianness) (off sz : Nat) (buf : List Nat) (v : Nat)
    (hlen : off + sz ≤ buf.length) :
    primWrite e off sz buf v =
      Except.ok (buf.take off ++ encodeBytes e sz v ++ buf.drop (off + sz)) := by
  simp [primWrite, hlen]

lemma primRead_after_write (e : Endianness) (off sz : Nat) (buf : List Nat) (v : Nat)
    (hlen : off + sz ≤ buf.length) (hv : v < 256 ^ sz) :
    primRead e off sz (buf.take off ++ encodeBytes e sz v ++ buf.drop (off + sz)) = Except.ok v := by
  have hm := encodeBytes_length e sz v
  have hlen2 := splice_length off sz buf (encodeBytes e sz v) hlen hm
  rw [primRead, if_pos (by rw [hlen2]; exact hlen)]
  rw [splice_slice off sz buf (encodeBytes e sz v) hlen hm]
  rw [decodeBytes_encodeBytes e sz v hv]

lemma toWire_lt (sz : Nat) (v : Int) : toWire sz v < 256 ^ sz := by
  rw [toWire]
  have hmpos : (0 : Int) < 2 ^ (8 * sz) := by positivity
  have h1 : v % 2 ^ (8 * sz) < 2 ^ (8 * sz) := Int.emod_lt_of_pos v hmpos
  have h2 : (0 : Int) ≤ v % 2 ^ (8 * sz) := Int.emod_nonneg v (ne_of_gt hmpos)
  have h3 : ((256 ^ sz : Nat) : Int) = 2 ^ (8 * sz) := by
    rw [pow_mul]
    norm_num
  omega

lemma fromWire_toWire (sz : Nat) (v : Int) (hsz : 1 ≤ sz)
    (hlo : -(2 ^ (8 * sz - 1)) ≤ v) (hhi : v < 2 ^ (8 * sz - 1)) :
    fromWire sz (toWire sz v) = v := by
  have hsplit : (2 : Int) ^ (8 * sz - 1) + 2 ^ (8 * sz - 1) = 2 ^ (8 * sz) := by
    have h1 : (2 : Int) ^ (8 * sz - 1) + 2 ^ (8 * sz - 1) = 2 ^ (8 * sz - 1) * 2 := by ring
    have h2 : (2 : Int) ^ (8 * sz - 1) * 2 = 2 ^ (8 * sz - 1 + 1) := (pow_succ 2 (8 * sz - 1)).symm
    have h3 : 8 * sz - 1 + 1 = 8 * sz := by omega
    rw [h1, h2, h3]
  have hmpos : (0 : Int) < 2 ^ (8 * sz) := by positivity
  have hcast : (((v % 2 ^ (8 * sz)).toNat : Int)) = v % 2 ^ (8 * sz) :=
    Int.toNat_of_nonneg (Int.emod_nonneg v (ne_of_gt hmpos))
  have hh2pos : (0 : Int) < 2 ^ (8 * sz - 1) := by positivity
  simp only [toWire, fromWire]
  rw [hcast]
  rcases le_or_lt 0 v with hpos | hneg
  · have hvm : v % 2 ^ (8 * sz) = v := Int.emod_eq_of_lt hpos (by omega)
    rw [hvm, if_pos hhi]
  · have h1 : (v + 2 ^ (8 * sz) * 1) % 2 ^ (8 * sz) = v % 2 ^ (8 * sz) :=
      Int.add_mul_emod_self_left v (2 ^ (8 * sz)) 1
    rw [mul_one] at h1
    have h2 : (v + 2 ^ (8 * sz)) % 2 ^ (8 * sz) = v + 2 ^ (8 * sz) :=
      Int.emod_eq_of_lt (by omega) (by omega)
    rw [h1] at h2
    rw [h2, if_neg (by omega)]
    omega

/-- Claim C2: round-trip law for primitive fields. For both
endiannesses, any field offset and byte width within the buffer:
writing an unsigned value and reading it back returns the value, for
every representable value; likewise for signed values via the
two's-complement wire pattern, and for fixed-size byte arrays which are
copied verbatim. -/
theorem primitive_field_roundtrip (e : Endianness) (offset size : Nat) (buf : List Nat)
    (hlen : offset + size ≤ buf.length) :
    (∀ v : Nat, v < 256 ^ size →
      Except.bind (primWrite e offset size buf v) (primRead e offset size) = Except.ok v) ∧
    (∀ v : Int, 1 ≤ size → -(2 ^ (8 * size - 1)) ≤ v → v < 2 ^ (8 * size - 1) →
      Except.bind (primWriteSigned e offset size buf v) (primReadSigned e offset size) =
        Except.ok v) ∧
    (∀ data : List Nat, data.length = size →
      Except.bind (primWriteBytes offset buf data) (primReadBytes offset size) =
        Except.ok data) := by
  refine ⟨?_, ?_, ?_⟩
  · intro v hv
    rw [primWrite_ok e offset size buf v hlen]
    show primRead e offset size _ = Except.ok v
    exact primRead_after_write e offset size buf v hlen hv
  · intro v hsz hlo hhi
    rw [primWriteSigned, primWrite_ok e offset size buf (toWire size v) hlen]
    show primReadSigned e offset size _ = Except.ok v
    rw [primReadSigned,
      primRead_after_write e offset size buf (toWire size v) hlen (toWire_lt size v)]
    show Except.ok (fromWire size (toWire size v)) = Except.ok v
    rw [fromWire_toWire size v hsz hlo hhi]
  · intro data hm
    rw [primWriteBytes, hm, if_pos hlen]
    show primReadBytes offset size _ = Except.ok data
    have hlen2 := splice_length offset size buf data hlen hm
    rw [primReadBytes, if_pos (by rw [hlen2]; exact hlen)]
    rw [splice_slice offset size buf data hlen hm]

/-- Witness for claim C2: a little-endian two-byte write and read of
513 at offset 1 of a four-byte buffer. -/
theorem primitive_field_roundtrip_witness :
    Except.bind (primWrite Endianness.little 1 2 (0 :: 0 :: 0 :: 0 :: []) 513)
      (primRead Endianness.little 1 2) = Except.ok 513 :=
  (primitive_field_roundtrip Endianness.little 1 2 (0 :: 0 :: 0 :: 0 :: []) (by decide)).1
    513 (by decide)

/-- Claim C4: an attempted field access over a buffer shorter than
`offset+size` fails with `bufferTooShort` carrying the required length
`offset+size` and the actual length, as an error value; no truncated
write or read is performed. -/
theorem buffer_too_short_rejected (e : Endianness) (offset size : Nat) (buf : List Nat)
    (v : Nat) (hshort : buf.length < offset + size) :
    primWrite e offset size buf v =
      Except.error (AccessError.bufferTooShort (offset + size) buf.length) ∧
    primRead e offset size buf =
      Except.error (AccessError.bufferTooShort (offset + size) buf.length) := by
  constructor
  · rw [primWrite, if_neg (by omega)]
  · rw [primRead, if_neg (by omega)]

/-- Witness for claim C4: a two-byte access at offset 9 of a ten-byte
buffer fails with required 11, actual 10. -/
theorem buffer_too_short_rejected_witness :
    primWrite Endianness.little 9 2 (List.replicate 10 0) 7 =
      Except.error (AccessError.bufferTooShort 11 10) ∧
    primRead Endianness.little 9 2 (List.replicate 10 0) =
      Except.error (AccessError.bufferTooShort 11 10) :=
  buffer_too_short_rejected Endianness.little 9 2 (List.replicate 10 0) 7 (by decide)

/-- Modelled from the spec: the ownership-tagged storage handle (the
`Data` wrapper the generated `View` stores is not under src/): a byte
buffer held as a shared borrow, an exclusive borrow, or owned. -/
inductive StorageHandle
  | sharedBorrow (buf : List Nat)
  | exclusiveBorrow (buf : List Nat)
  | owned (buf : List Nat)
  deriving DecidableEq, Repr

/-- Modelled from the spec: the readable slice, available for every
storage handle. -/
def StorageHandle.as_ref : StorageHandle → List Nat
  | StorageHandle.sharedBorrow b => b
  | StorageHandle.exclusiveBorrow b => b
  | StorageHandle.owned b => b

/-- Modelled from the spec: the writable slice, available only for
exclusively-borrowed or owned storage. -/
def StorageHandle.as_mut : StorageHandle → Option (List Nat)
  | StorageHandle.sharedBorrow _ => none
  | StorageHandle.exclusiveBorrow b => some b
  | StorageHandle.owned b => some b

/-- Embeds the generated `View` struct from the source: it stores only
the storage handle. -/
structure View where
  storage : StorageHandle
  deriving DecidableEq, Repr

/-- Embeds `View::new` from the source: wraps the storage; no buffer
validation is performed. -/
def View.new (storage : StorageHandle) : View :=
  View.mk storage

/-- Embeds `View::into_storage` from the source: destroys the view and
returns the stored handle. -/
def View.into_storage (v : View) : StorageHandle :=
  v.storage

/-- Embeds the generated per-field read accessor: reads the resolved
field range from the readable slice of the storage. -/
def View.readField (v : View) (e : Endianness) (offset size : Nat) : Except AccessError Nat :=
  primRead e offset size v.storage.as_ref

/-- Embeds the generated per-field write accessor: it exists only when
the storage offers a writable slice (the source gates it behind the
mutable-slice trait bound). -/
def View.writeField (v : View) (e : Endianness) (offset size val : Nat) :
    Option (Except AccessError (List Nat)) :=
  Option.map (fun buf => primWrite e offset size buf val) v.storage.as_mut

/-- Embeds the `module_level_layout` test layout from the source:
first: i8, second: i64, third: u16 (sizes 1, 8 and 2 bytes). -/
def module_level_layout : List FieldSpec :=
  FieldSpec.mk "first" (some 1) :: FieldSpec.mk "second" (some 8) ::
    FieldSpec.mk "third" (some 2) :: []

set_option maxRecDepth 8192 in
/-- Claim C5: for the little-endian layout first:i8, second:i64,
third:u16, the resolved offsets are first=0, second=1, third=9 and the
total size is 11; reading third from a 1024-byte zero-filled buffer
returns 0. -/
theorem module_level_layout_example :
    resolveFields (some 0) module_level_layout =
      Except.ok (ResolvedField.mk "first" 0 (some 1) :: ResolvedField.mk "second" 1 (some 8) ::
        ResolvedField.mk "third" 9 (some 2) :: [], some 11) ∧
    (View.new (StorageHandle.owned (List.replicate 1024 0))).readField Endianness.little 9 2 =
      Except.ok 0 :=
  ⟨rfl, rfl⟩

/-- Claim C6: `into_storage` is a right inverse of view construction:
it returns the handle the view was constructed over, with the readable
bytes unchanged. -/
theorem into_storage_right_inverse (s : StorageHandle) :
    (View.new s).into_storage = s ∧ ((View.new s).into_storage).as_ref = s.as_ref :=
  ⟨rfl, rfl⟩

/-- Claim C7: view construction performs no buffer-length validation —
it wraps any storage — and length preconditions are checked lazily per
field: a read always equals the primitive read over the stored bytes,
succeeding whenever that single field's range fits the buffer and
failing only when it does not, independently of the layout total size. -/
theorem view_construction_lazy_validation (s : StorageHandle) (e : Endianness)
    (offset size : Nat) :
    (View.new s).storage = s ∧
    ((View.new s).readField e offset size = primRead e offset size s.as_ref) ∧
    (offset + size ≤ s.as_ref.length →
      (View.new s).readField e offset size =
        Except.ok (decodeBytes e ((s.as_ref.drop offset).take size))) ∧
    (s.as_ref.length < offset + size →
      (View.new s).readField e offset size =
        Except.error (AccessError.bufferTooShort (offset + size) s.as_ref.length)) := by
  refine ⟨rfl, rfl, ?_, ?_⟩
  · intro h
    simp [View.readField, View.new, primRead, h]
  · intro h
    simp only [View.readField, View.new, primRead]
    rw [if_neg (by simp [View.new]; omega)]

/-- Witness for claim C7: over a three-byte shared-borrowed buffer
(shorter than most layouts), a two-byte field at offset 0 is read
successfully. -/
theorem view_construction_lazy_validation_witness :
    (View.new (StorageHandle.sharedBorrow (5 :: 6 :: 7 :: []))).readField
      Endianness.little 0 2 = Except.ok 1541 :=
  (view_construction_lazy_validation (StorageHandle.sharedBorrow (5 :: 6 :: 7 :: []))
    Endianness.little 0 2).2.2.1 (by decide)

/-- Claim C8: the per-field write accessor exists only on views whose
storage grants exclusive or owned access; a view over shared-borrowed
storage has no write accessor at all. -/
theorem write_accessor_requires_exclusive (buf : List Nat) (e : Endianness)
    (offset size val : Nat) :
    (View.new (StorageHandle.sharedBorrow buf)).writeField e offset size val = none ∧
    (View.new (StorageHandle.exclusiveBorrow buf)).writeField e offset size val =
      some (primWrite e offset size buf val) ∧
    (View.new (StorageHandle.owned buf)).writeField e offset size val =
      some (primWrite e offset size buf val) :=
  ⟨rfl, rfl, rfl⟩

/-- Embeds a sequence of read-accessor calls against a view; each call
takes the view by shared reference in the source, so the view is
threaded through unchanged. -/
def runReads (v : View) : List (Endianness × Nat × Nat) → List (Except AccessError Nat) × View
  | [] => ([], v)
  | op :: ops =>
    let r := v.readField op.1 op.2.1 op.2.2
    let rest := runReads v ops
    (r :: rest.1, rest.2)

/-- Claim C10: read accessors never mutate the view or its storage:
after any sequence of reads the view is unchanged, into_storage still
returns exactly the bytes the view was constructed over, and repeating
any read returns the same value. -/
theorem reads_do_not_mutate (v : View) (ops : List (Endianness × Nat × Nat))
    (e : Endianness) (offset size : Nat) :
    (runReads v ops).2 = v ∧
    ((runReads v ops).2).into_storage.as_ref = v.storage.as_ref ∧
    ((runReads v ops).2).readField e offset size = v.readField e offset size := by
  have h : (runReads v ops).2 = v := by
    induction ops with
    | nil => rfl
    | cons op rest ih => simp [runReads, ih]
  exact ⟨h, by rw [h]; rfl, by rw [h]⟩

/-- The recoverable failure of a wire-to-domain conversion. -/
inductive ConversionError
  | invalidWireValue (u : Nat)
  deriving DecidableEq, Repr

/-- Modelled from the spec: the conversion pair of a wrapped field (the
WrappedField implementation is not under src/) — a fallible
wire-to-domain map and an infallible domain-to-wire map. -/
structure Conversion (D : Type) where
  toDomain : Nat → Except ConversionError D
  ofDomain : D → Nat

/-- The error type of a wrapped-field read: either the underlying
primitive access failed, or the wire-to-domain conversion failed. -/
inductive WrappedError
  | access (a : AccessError)
  | conversion (c : ConversionError)
  deriving DecidableEq, Repr

/-- Modelled from the spec: WrappedField `read` — delegates to the
primitive read to obtain the wire value, then applies the
wire-to-domain conversion, surfacing a conversion failure as an error
value. -/
def wrappedRead {D : Type} (c : Conversion D) (e : Endianness) (offset size : Nat)
    (buf : List Nat) : Except WrappedError D :=
  match primRead e offset size buf with
  | Except.error a => Except.error (WrappedError.access a)
  | Except.ok u =>
    match c.toDomain u with
    | Except.error ce => Except.error (WrappedError.conversion ce)
    | Except.ok d => Except.ok d

/-- Claim C9: a wrapped-field read first obtains the wire value via the
underlying primitive read and then applies the conversion; a successful
conversion's value is returned, and a failed conversion's error is
surfaced to the caller rather than discarded. -/
theorem wrapped_field_read_surfaces_conversion {D : Type} (c : Conversion D)
    (e : Endianness) (offset size : Nat) (buf : List Nat) (u : Nat)
    (hu : primRead e offset size buf = Except.ok u) :
    (∀ d, c.toDomain u = Except.ok d → wrappedRead c e offset size buf = Except.ok d) ∧
    (∀ ce, c.toDomain u = Except.error ce →
      wrappedRead c e offset size buf = Except.error (WrappedError.conversion ce)) := by
  constructor
  · intro d hd
    simp [wrappedRead, hu, hd]
  · intro ce hce
    simp [wrappedRead, hu, hce]

/-- A concrete conversion between the wire type and Bool: 0 and 1 map
to false and true, anything else fails. -/
def boolConversion : Conversion Bool :=
  Conversion.mk
    (fun u =>
      if u = 0 then Except.ok false
      else if u = 1 then Except.ok true
      else Except.error (ConversionError.invalidWireValue u))
    (fun b => if b then 1 else 0)

/-- Witness for claim C9: reading the wire byte 7 through the Bool
conversion surfaces the conversion error. -/
theorem wrapped_field_read_surfaces_conversion_witness :
    wrappedRead boolConversion Endianness.little 0 1 (7 :: []) =
      Except.error (WrappedError.conversion (ConversionError.invalidWireValue 7)) :=
  (wrapped_field_read_surfaces_conversion boolConversion Endianness.little 0 1 (7 :: []) 7
    rfl).2 (ConversionError.invalidWireValue 7) rfl
